import Mathlib

/-!
Verification of the voice-activity-gated audio recorder
(`src/project1/main.py`): energy meter, adaptive classifier, recording
state machine, warm-up discard, and the trimming buffer of the main loop.
The Python code is shallowly embedded: module-level constants become Lean
constants, closures with mutable captured state become pure transition
functions on explicit state records, float arithmetic is embedded as exact
rational arithmetic, and `Queue.get(timeout=...)` on an empty queue, which
raises in Python, is embedded as an `Except` error value.
-/

namespace VAD

/-! ## Module constants, from the top of `main.py`. -/

def SIZEOF_FRAME : Nat := 2

def N_CHANNEL : Nat := 1

def SAMPLING_RATE : Nat := 16000

def CHUNK_MS : Nat := 20

def N_FRAME_PER_CHUNK : Nat := SAMPLING_RATE * CHUNK_MS / 1000

def MAX_PAUSE_MS : Nat := 2000

/-- Bytes per 20 ms chunk: `N_FRAME_PER_CHUNK` frames of `SIZEOF_FRAME` bytes. -/
def one_chunk_size : Nat := N_FRAME_PER_CHUNK * SIZEOF_FRAME

/-- `buffer_size = SAMPLING_RATE * MAX_PAUSE_MS * SIZEOF_FRAME // 1000`
from `main` (line 33). -/
def buffer_size : Nat := SAMPLING_RATE * MAX_PAUSE_MS * SIZEOF_FRAME / 1000

/-! ## Recording state machine (`get_recording_status`, lines 115-141). -/

/-- The `RecordingStatus` enum of `main.py`. -/
inductive RecordingStatus where
  | PENDING
  | GOING
  | STOPPING
deriving DecidableEq, Repr, BEq

/-- The mutable state captured by the `recording_status` closure:
`off_time` and `started`. -/
structure RecState where
  off_time : Nat
  started : Bool
deriving DecidableEq, Repr

/-- Fresh state of `get_recording_status`: `off_time = 0`, `started = False`. -/
def recInit : RecState := ⟨0, false⟩

/-- One call of the `recording_status` closure (lines 123-139): returns the
status and the updated captured state. -/
def recording_status (is_speech : Bool) (s : RecState) :
    RecordingStatus × RecState :=
  if !s.started then
    if is_speech then (.GOING, ⟨s.off_time, true⟩)
    else (.PENDING, s)
  else
    let off := if is_speech then 0 else s.off_time + CHUNK_MS
    if MAX_PAUSE_MS < off then (.STOPPING, ⟨off, s.started⟩)
    else (.GOING, ⟨off, s.started⟩)

/-- The status sequence observed by the `while True` loop of `main`
(lines 56-71): one status per processed chunk decision, and the loop
`break`s as soon as `STOPPING` is returned, so no later decision is
processed. -/
def runStatuses (s : RecState) : List Bool → List RecordingStatus
  | [] => []
  | d :: ds =>
    match recording_status d s with
    | (.STOPPING, _) => [.STOPPING]
    | (st, s') => st :: runStatuses s' ds

/-- Accepts status lists of the form `GOING* STOPPING?`. -/
def chkGoing : List RecordingStatus → Bool
  | [] => true
  | [.STOPPING] => true
  | .GOING :: t => chkGoing t
  | _ => false

/-- Accepts status lists of the form `PENDING* GOING* STOPPING?`:
`PENDING` never reappears after `GOING`, `STOPPING` occurs at most once
and only as the final status. -/
def chkShape : List RecordingStatus → Bool
  | .PENDING :: t => chkShape t
  | l => chkGoing l

lemma chkGoing_of_started (ds : List Bool) :
    ∀ s : RecState, s.started = true → chkGoing (runStatuses s ds) = true := by
  induction ds with
  | nil => intro s _; rfl
  | cons d ds ih =>
    intro s hs
    cases d with
    | false =>
      by_cases hoff : MAX_PAUSE_MS < s.off_time + CHUNK_MS
      · simp [runStatuses, recording_status, hs, hoff, chkGoing]
      · simp [runStatuses, recording_status, hs, hoff, chkGoing, ih]
    | true =>
      have hlt : ¬ MAX_PAUSE_MS < 0 := by omega
      simp [runStatuses, recording_status, hs, hlt, chkGoing, ih]

lemma chkShape_runStatuses (ds : List Bool) :
    ∀ s : RecState, s.started = false → chkShape (runStatuses s ds) = true := by
  induction ds with
  | nil => intro s _; rfl
  | cons d ds ih =>
    intro s hs
    by_cases hd : d = true
    · simp only [runStatuses, recording_status, hs, hd]
      simp [chkShape, chkGoing, chkGoing_of_started]
    · simp only [runStatuses, recording_status, hs, eq_false_of_ne_true hd]
      simpa [chkShape] using ih s hs

lemma runStatuses_length_le (ds : List Bool) :
    ∀ s : RecState, (runStatuses s ds).length ≤ ds.length := by
  induction ds with
  | nil => intro s; simp [runStatuses]
  | cons d ds ih =>
    intro s
    simp only [runStatuses]
    split
    · simp
    · simpa using ih _

/-- C1: for every sequence of per-chunk speech decisions, the status
sequence observed by the main loop matches `PENDING* GOING* STOPPING?`:
`PENDING` only before the first `GOING`, `STOPPING` at most once and only
as the final observed status (the loop breaks there), and never more
statuses than decisions, so no chunk is processed after `STOPPING`. -/
theorem recording_status_shape (ds : List Bool) :
    chkShape (runStatuses recInit ds) = true ∧
      (runStatuses recInit ds).length ≤ ds.length :=
  ⟨chkShape_runStatuses ds recInit rfl, runStatuses_length_le ds recInit⟩

/-! ## Trimming buffer and main loop (`main`, lines 56-71).

Chunk payloads are byte lists; the speech decision produced by the
classifier for each chunk is abstracted as the `Bool` paired with it. -/

/-- Consumer-loop state: the trimming `buffer`, the bytes written to the
output sink so far (`out`), and the recording state machine's state. -/
structure LoopState where
  buffer : List Nat
  out : List Nat
  rstate : RecState
deriving DecidableEq, Repr

def loopInit : LoopState := ⟨[], [], recInit⟩

/-- One iteration of the `while True` body of `main` for a chunk with
payload `data` and speech decision `d`: the `match status` on lines 62-71.
On `GOING` the payload is appended; if the buffer then exceeds
`buffer_size`, all but the trailing `buffer_size` bytes are flushed to the
sink. On `STOPPING` nothing is appended or flushed. -/
def mainStep (data : List Nat) (d : Bool) (st : LoopState) :
    LoopState × RecordingStatus :=
  let (status, r') := recording_status d st.rstate
  match status with
  | .PENDING => (⟨st.buffer, st.out, r'⟩, status)
  | .GOING =>
    let buf := st.buffer ++ data
    if buffer_size < buf.length then
      (⟨buf.drop (buf.length - buffer_size),
        st.out ++ buf.take (buf.length - buffer_size), r'⟩, status)
    else (⟨buf, st.out, r'⟩, status)
  | .STOPPING => (⟨st.buffer, st.out, r'⟩, status)

/-- The consumer loop of `main`: processes chunks in order and `break`s
(without flushing the residual buffer) when `STOPPING` is returned. -/
def mainLoop (st : LoopState) : List (List Nat × Bool) → LoopState
  | [] => st
  | (data, d) :: rest =>
    match mainStep data d st with
    | (st', .STOPPING) => st'
    | (st', _) => mainLoop st' rest

/-- The bytes appended to the trimming buffer during a session: the
concatenation, in order, of the payloads of the chunks processed while the
status is `GOING` (processing stops at `STOPPING`). -/
def appendedBytes (r : RecState) : List (List Nat × Bool) → List Nat
  | [] => []
  | (data, d) :: rest =>
    match recording_status d r with
    | (.PENDING, r') => appendedBytes r' rest
    | (.GOING, r') => data ++ appendedBytes r' rest
    | (.STOPPING, _) => []

/-- Conservation: no byte is lost before `STOPPING` — the sink content
followed by the resident buffer equals the prior content followed by
everything appended during the run. -/
lemma mainLoop_conserves (inputs : List (List Nat × Bool)) :
    ∀ st : LoopState,
      (mainLoop st inputs).out ++ (mainLoop st inputs).buffer =
        st.out ++ st.buffer ++ appendedBytes st.rstate inputs := by
  induction inputs with
  | nil => intro st; simp [mainLoop, appendedBytes]
  | cons p rest ih =>
    intro st
    rcases p with ⟨data, d⟩
    simp only [mainLoop, mainStep, appendedBytes]
    rcases hr : recording_status d st.rstate with ⟨status, r'⟩
    cases status with
    | PENDING => simpa [List.append_assoc] using ih ⟨st.buffer, st.out, r'⟩
    | GOING =>
      by_cases hlen : buffer_size < (st.buffer ++ data).length
      · simp only [hlen, if_true]
        rw [ih]
        simp [List.append_assoc, List.take_append_drop]
      · simp only [hlen, if_false]
        rw [ih]
        simp [List.append_assoc]
    | STOPPING => simp

/-- Buffer-length invariant preserved by the loop: the resident length is
the total appended so far, capped at `buffer_size`. -/
def lenInv (st : LoopState) : Prop :=
  st.buffer.length = min (st.buffer.length + st.out.length) buffer_size

lemma mainLoop_lenInv (inputs : List (List Nat × Bool)) :
    ∀ st : LoopState, lenInv st → lenInv (mainLoop st inputs) := by
  induction inputs with
  | nil => intro st h; exact h
  | cons p rest ih =>
    intro st h
    rcases p with ⟨data, d⟩
    simp only [mainLoop, mainStep]
    rcases hr : recording_status d st.rstate with ⟨status, r'⟩
    cases status with
    | PENDING => exact ih _ h
    | GOING =>
      by_cases hlen : buffer_size < (st.buffer ++ data).length
      · simp only [hlen, if_true]
        apply ih
        unfold lenInv at h ⊢
        simp only [List.length_drop, List.length_append, List.length_take] at *
        omega
      · simp only [hlen, if_false]
        apply ih
        unfold lenInv at h ⊢
        simp only [List.length_append] at *
        omega
    | STOPPING =>
      unfold lenInv at h ⊢
      simpa using h

/-- C2: when the loop ends (in particular at `STOPPING`), the sink holds
exactly `total appended − buffer_size` bytes (clamped at 0 by truncated
subtraction), namely the leading bytes of the appended stream; the
trailing `min (total appended) buffer_size` bytes stay in the buffer and
are never flushed. -/
theorem trimming_discards_tail (inputs : List (List Nat × Bool)) :
    (mainLoop loopInit inputs).out.length =
        (appendedBytes recInit inputs).length - buffer_size ∧
      (mainLoop loopInit inputs).out =
        (appendedBytes recInit inputs).take
          ((appendedBytes recInit inputs).length - buffer_size) ∧
      (mainLoop loopInit inputs).buffer =
        (appendedBytes recInit inputs).drop
          ((appendedBytes recInit inputs).length - buffer_size) := by
  have hc : (mainLoop loopInit inputs).out ++ (mainLoop loopInit inputs).buffer
      = appendedBytes recInit inputs := by
    simpa [loopInit] using mainLoop_conserves inputs loopInit
  have hl := mainLoop_lenInv inputs loopInit (by simp [lenInv, loopInit])
  have hlen : (mainLoop loopInit inputs).out.length +
      (mainLoop loopInit inputs).buffer.length =
      (appendedBytes recInit inputs).length := by
    have := congrArg List.length hc
    simpa [List.length_append] using this
  unfold lenInv at hl
  have hout : (mainLoop loopInit inputs).out.length =
      (appendedBytes recInit inputs).length - buffer_size := by omega
  refine ⟨hout, ?_, ?_⟩
  · rw [← hout, ← hc, List.take_left]
  · rw [show (appendedBytes recInit inputs).length - buffer_size =
        (mainLoop loopInit inputs).out.length from hout.symm]
    rw [← hc, List.drop_left]

/-- C6: under the loop invariant (resident buffer at most `buffer_size`)
and for a chunk of `one_chunk_size` bytes processed while `GOING`: the
buffer never exceeds `buffer_size + one_chunk_size` at the check point;
when the check point exceeds `buffer_size`, the flush writes exactly the
`length − buffer_size` leading bytes to the sink and removes them, leaving
exactly `buffer_size` resident bytes; otherwise nothing is written. -/
theorem trimming_buffer_step (data : List Nat) (d : Bool) (st : LoopState)
    (hbuf : st.buffer.length ≤ buffer_size)
    (hdata : data.length = one_chunk_size)
    (hgo : (recording_status d st.rstate).1 = .GOING) :
    (st.buffer ++ data).length ≤ buffer_size + one_chunk_size ∧
      (mainStep data d st).1.buffer.length ≤ buffer_size ∧
      (buffer_size < (st.buffer ++ data).length →
        (mainStep data d st).1.out =
            st.out ++ (st.buffer ++ data).take
              ((st.buffer ++ data).length - buffer_size) ∧
          (mainStep data d st).1.buffer =
            (st.buffer ++ data).drop
              ((st.buffer ++ data).length - buffer_size) ∧
          (mainStep data d st).1.buffer.length = buffer_size) ∧
      (¬ buffer_size < (st.buffer ++ data).length →
        (mainStep data d st).1.out = st.out ∧
          (mainStep data d st).1.buffer = st.buffer ++ data) := by
  have hms : (mainStep data d st).1 =
      if buffer_size < (st.buffer ++ data).length then
        (⟨(st.buffer ++ data).drop ((st.buffer ++ data).length - buffer_size),
          st.out ++ (st.buffer ++ data).take
            ((st.buffer ++ data).length - buffer_size),
          (recording_status d st.rstate).2⟩ : LoopState)
      else ⟨st.buffer ++ data, st.out, (recording_status d st.rstate).2⟩ := by
    rcases hr : recording_status d st.rstate with ⟨status, r'⟩
    have hst : status = .GOING := by rw [hr] at hgo; exact hgo
    subst hst
    simp only [mainStep, hr]
    split <;> rfl
  by_cases hlen : buffer_size < (st.buffer ++ data).length
  · rw [if_pos hlen] at hms
    generalize hk : (st.buffer ++ data).length - buffer_size = k at hms ⊢
    refine ⟨?_, ?_, ?_, ?_⟩
    · simp only [List.length_append]; omega
    · rw [hms]; rw [List.length_drop]; omega
    · intro _
      rw [hms]
      refine ⟨rfl, rfl, ?_⟩
      rw [List.length_drop]
      omega
    · intro h; exact absurd hlen h
  · rw [if_neg hlen] at hms
    refine ⟨?_, ?_, ?_, ?_⟩
    · simp only [List.length_append] at *; omega
    · rw [hms]; simp only [List.length_append] at *; omega
    · intro h; exact absurd h hlen
    · intro _; rw [hms]; exact ⟨rfl, rfl⟩

set_option maxRecDepth 100000 in
/-- Closed witness for `trimming_buffer_step`: a fresh loop state, a
640-byte chunk and a speech decision, so the status is `GOING` and no
flush occurs. -/
theorem trimming_buffer_step_witness :
    loopInit.buffer.length ≤ buffer_size ∧
      (List.replicate 640 0).length = one_chunk_size ∧
      (recording_status true loopInit.rstate).1 = .GOING ∧
      ((loopInit.buffer ++ List.replicate 640 0).length ≤
          buffer_size + one_chunk_size ∧
        (mainStep (List.replicate 640 0) true loopInit).1.buffer.length ≤
          buffer_size ∧
        (buffer_size < (loopInit.buffer ++ List.replicate 640 0).length →
          (mainStep (List.replicate 640 0) true loopInit).1.out =
              loopInit.out ++ (loopInit.buffer ++ List.replicate 640 0).take
                ((loopInit.buffer ++ List.replicate 640 0).length -
                  buffer_size) ∧
            (mainStep (List.replicate 640 0) true loopInit).1.buffer =
              (loopInit.buffer ++ List.replicate 640 0).drop
                ((loopInit.buffer ++ List.replicate 640 0).length -
                  buffer_size) ∧
            (mainStep (List.replicate 640 0) true loopInit).1.buffer.length =
              buffer_size) ∧
        (¬ buffer_size <
            (loopInit.buffer ++ List.replicate 640 0).length →
          (mainStep (List.replicate 640 0) true loopInit).1.out =
              loopInit.out ∧
            (mainStep (List.replicate 640 0) true loopInit).1.buffer =
              loopInit.buffer ++ List.replicate 640 0)) :=
  ⟨by decide, by decide, by decide,
    trimming_buffer_step (List.replicate 640 0) true loopInit (by decide)
      (by decide) (by decide)⟩

/-! ## Adaptive classifier (`get_classify_sample`, lines 154-214).

Python float arithmetic is embedded as exact rational arithmetic; the
tunable float constants become the corresponding rationals. -/

def STARTING_THRESHOLD_DB : ℚ := 15

def CONTINUING_THRESHOLD_DB : ℚ := 2

def STOPPING_THRESHOLD_DB : ℚ := -20

def WEAK_ADJUSTMENT : ℚ := 1/20

def STRONG_ADJUSTMENT : ℚ := 4/5

def FORGET_FACTOR : ℚ := 6/5

/-- The mutable state captured by the `classify_frame` closure: `level`
and `background` start as `None`, `foreground = 0.0`, `speaking = False`. -/
structure ClassifierState where
  level : Option ℚ
  background : Option ℚ
  foreground : ℚ
  speaking : Bool
deriving DecidableEq, Repr

def classifyInit : ClassifierState := ⟨none, none, 0, false⟩

/-- `adjust_conditionally_on_change` (lines 209-214). -/
def adjust_conditionally_on_change (original updated adjustment_if_inc
    adjustment_if_dec : ℚ) : ℚ :=
  let diff := updated - original
  (if 0 < diff then adjustment_if_inc else adjustment_if_dec) * diff + original

/-- One call of the `classify_frame` closure (lines 170-204): returns the
`speaking` decision and the updated captured state. -/
def classify_frame (current : ℚ) (s : ClassifierState) :
    Bool × ClassifierState :=
  let level := (s.level.getD current * FORGET_FACTOR + current) /
    (FORGET_FACTOR + 1)
  let background := s.background.getD current
  let p1 :=
    if s.speaking then
      if level - background < CONTINUING_THRESHOLD_DB ∨
          level - s.foreground < STOPPING_THRESHOLD_DB then
        (false, if background < level then background else level,
          s.foreground)
      else
        (true, background,
          adjust_conditionally_on_change s.foreground level
            STRONG_ADJUSTMENT WEAK_ADJUSTMENT)
    else (false, background, s.foreground)
  let p2 :=
    if p1.1 then p1
    else if STARTING_THRESHOLD_DB ≤ level - p1.2.1 then
      (true, p1.2.1, level)
    else
      (false,
        adjust_conditionally_on_change p1.2.1 level WEAK_ADJUSTMENT
          STRONG_ADJUSTMENT,
        p1.2.2)
  (p2.1, ⟨some level, some p2.2.1, p2.2.2, p2.1⟩)

/-! ## Reference definition of the classifier update, from the words of
the specification (sections 4.2 / claim C3). -/

/-- Modelled from the spec: move `x` toward `target`, with step fraction
`stepInc` when this is an increase and `stepDec` when a decrease. -/
def adjustToward (x target stepInc stepDec : ℚ) : ℚ :=
  if x < target then x + stepInc * (target - x)
  else x + stepDec * (target - x)

/-- Modelled from the spec: the per-chunk classifier update exactly as
worded in the specification, to be compared with `classify_frame`.
Fields of the intermediate triples are (speaking, background,
foreground). -/
def classify_frame_spec (current : ℚ) (s : ClassifierState) :
    Bool × ClassifierState :=
  let level := (s.level.getD current * FORGET_FACTOR + current) /
    (FORGET_FACTOR + 1)
  let bg := s.background.getD current
  let q1 :=
    if s.speaking ∧ (level - bg < CONTINUING_THRESHOLD_DB ∨
        level - s.foreground < STOPPING_THRESHOLD_DB) then
      (false, min bg level, s.foreground)
    else if s.speaking then
      (true, bg, adjustToward s.foreground level STRONG_ADJUSTMENT
        WEAK_ADJUSTMENT)
    else (false, bg, s.foreground)
  let q2 :=
    if q1.1 = false ∧ STARTING_THRESHOLD_DB ≤ level - q1.2.1 then
      (true, q1.2.1, level)
    else if q1.1 = false then
      (false, adjustToward q1.2.1 level WEAK_ADJUSTMENT STRONG_ADJUSTMENT,
        q1.2.2)
    else q1
  (q2.1, ⟨some level, some q2.2.1, q2.2.2, q2.1⟩)

lemma adjust_eq_adjustToward (o u a b : ℚ) :
    adjust_conditionally_on_change o u a b = adjustToward o u a b := by
  show (if 0 < u - o then a else b) * (u - o) + o =
    if o < u then o + a * (u - o) else o + b * (u - o)
  by_cases h : o < u
  · rw [if_pos (by linarith : (0:ℚ) < u - o), if_pos h]; ring
  · rw [if_neg (by simp only [sub_pos]; exact h), if_neg h]; ring

lemma if_lt_eq_min (a b : ℚ) : (if a < b then a else b) = min a b := by
  by_cases h : a < b
  · rw [if_pos h, min_eq_left h.le]
  · rw [if_neg h, min_eq_right (le_of_not_lt h)]

/-- C3: the per-chunk classifier update of the code coincides, for every
input energy and every classifier state, with the reference update written
from the specification's words. -/
theorem classify_frame_eq_spec (current : ℚ) (s : ClassifierState) :
    classify_frame current s = classify_frame_spec current s := by
  obtain ⟨lv, bg, fg, sp⟩ := s
  simp only [classify_frame, classify_frame_spec, adjust_eq_adjustToward,
    if_lt_eq_min]
  cases sp
  · simp
  · by_cases hC : (lv.getD current * FORGET_FACTOR + current) /
        (FORGET_FACTOR + 1) - bg.getD current < CONTINUING_THRESHOLD_DB ∨
        (lv.getD current * FORGET_FACTOR + current) / (FORGET_FACTOR + 1) -
          fg < STOPPING_THRESHOLD_DB
    · simp [hC]
    · simp [hC]

lemma level_of_eq (c : ℚ) :
    (c * FORGET_FACTOR + c) / (FORGET_FACTOR + 1) = c := by
  have h : (FORGET_FACTOR + 1 : ℚ) ≠ 0 := by unfold FORGET_FACTOR; norm_num
  field_simp
  ring

lemma adjust_self (o a b : ℚ) : adjust_conditionally_on_change o o a b = o := by
  show (if (0:ℚ) < o - o then a else b) * (o - o) + o = o
  simp

/-- C10: a freshly constructed classifier always classifies its first
chunk as non-speech, whatever the chunk's energy: `level` and
`background` are both set to that energy, the smoothing update leaves
`level` unchanged, and `level - background = 0 < STARTING_THRESHOLD_DB`. -/
theorem classify_first_chunk_false (c : ℚ) :
    (classify_frame c classifyInit).1 = false := by
  simp only [classify_frame, classifyInit, Option.getD_none, level_of_eq]
  norm_num [STARTING_THRESHOLD_DB]

/-- The classifier state reached after one constant-energy chunk; a fixed
point of `classify_frame` at that energy. -/
def constState (c : ℚ) : ClassifierState := ⟨some c, some c, 0, false⟩

lemma classify_const_init (c : ℚ) :
    classify_frame c classifyInit = (false, constState c) := by
  simp only [classify_frame, classifyInit, constState, Option.getD_none,
    level_of_eq, adjust_self]
  norm_num [STARTING_THRESHOLD_DB, adjust_self]

lemma classify_const_fix (c : ℚ) :
    classify_frame c (constState c) = (false, constState c) := by
  simp only [classify_frame, constState, Option.getD_some, level_of_eq,
    adjust_self]
  norm_num [STARTING_THRESHOLD_DB, adjust_self]

/-! ## The classifier and state machine composed, fed per-chunk energies
(the consumer loop of `main` viewed at the energy level). -/

/-- The per-chunk decisions of the `classify_frame` closure along a list
of chunk energies. -/
def classifyStream (cs : ClassifierState) : List ℚ → List Bool
  | [] => []
  | e :: es =>
    match classify_frame e cs with
    | (sp, cs') => sp :: classifyStream cs' es

/-- The statuses observed by the main loop along a list of chunk
energies: classifier decision, then state machine, breaking at
`STOPPING`. -/
def runPipeline (cs : ClassifierState) (rs : RecState) :
    List ℚ → List RecordingStatus
  | [] => []
  | e :: es =>
    match classify_frame e cs with
    | (sp, cs') =>
      match recording_status sp rs with
      | (.STOPPING, _) => [.STOPPING]
      | (st, rs') => st :: runPipeline cs' rs' es

lemma classifyStream_const (c : ℚ) (n : ℕ) :
    classifyStream (constState c) (List.replicate n c) =
      List.replicate n false := by
  induction n with
  | zero => rfl
  | succ n ih =>
    simp only [List.replicate_succ, classifyStream, classify_const_fix, ih]

lemma runPipeline_const (c : ℚ) (n : ℕ) :
    runPipeline (constState c) recInit (List.replicate n c) =
      List.replicate n .PENDING := by
  induction n with
  | zero => rfl
  | succ n ih =>
    simp only [List.replicate_succ, runPipeline, classify_const_fix]
    rw [show recording_status false recInit = (.PENDING, recInit) from rfl]
    simp [ih]

/-- C5: on a stream of chunks of constant energy, the classifier decides
non-speech on every chunk and the recording state machine stays `PENDING`
forever (stated for every finite prefix of the infinite constant
stream). -/
theorem constant_noise_stays_pending (n : ℕ) (c : ℚ) :
    classifyStream classifyInit (List.replicate n c) =
        List.replicate n false ∧
      runPipeline classifyInit recInit (List.replicate n c) =
        List.replicate n .PENDING := by
  cases n with
  | zero => exact ⟨rfl, rfl⟩
  | succ n =>
    constructor
    · simp only [List.replicate_succ, classifyStream, classify_const_init,
        classifyStream_const]
    · simp only [List.replicate_succ, runPipeline, classify_const_init]
      rw [show recording_status false recInit = (.PENDING, recInit) from rfl]
      simp [runPipeline_const]

/-! ## Energy meter (`sample_decibel_energy`, lines 217-221).

A chunk is a list of signed 16-bit sample values, embedded as integers
with `-32768 ≤ x ≤ 32767`. The code widens to `int64` before squaring;
`numpy`'s `arr.dot(arr)` is then an exact `int64` sum of squares, so the
embedding accumulates in `ℤ` and separately proves the 64-bit bound. -/

/-- `arr.dot(arr)` after the `int64` widening: the exact sum of squared
samples. -/
def dotSelf (l : List ℤ) : ℤ := (l.map fun x => x * x).sum

/-- `sample_decibel_energy`: `10 * log10(arr.dot(arr) / arr.size)`. -/
noncomputable def sample_decibel_energy (l : List ℤ) : ℝ :=
  Real.logb 10 ((dotSelf l : ℝ) / (l.length : ℝ)) * 10

/-- Modelled from the spec: the mean of the squared samples. -/
noncomputable def meanSquare (l : List ℤ) : ℝ :=
  (l.map fun x : ℤ => (x : ℝ) ^ 2).sum / (l.length : ℝ)

lemma dotSelf_cast (l : List ℤ) :
    ((dotSelf l : ℤ) : ℝ) = (l.map fun x : ℤ => (x : ℝ) ^ 2).sum := by
  unfold dotSelf
  induction l with
  | nil => simp
  | cons x xs ih =>
    simp only [List.map_cons, List.sum_cons]
    rw [Int.cast_add, Int.cast_mul, ih]
    ring

lemma dotSelf_nonneg (l : List ℤ) : 0 ≤ dotSelf l := by
  unfold dotSelf
  induction l with
  | nil => simp
  | cons x xs ih =>
    simp only [List.map_cons, List.sum_cons]
    nlinarith [mul_self_nonneg x]

lemma dotSelf_le (l : List ℤ) (hb : ∀ x ∈ l, -32768 ≤ x ∧ x ≤ 32767) :
    dotSelf l ≤ l.length * 32768 ^ 2 := by
  unfold dotSelf
  induction l with
  | nil => simp
  | cons x xs ih =>
    have hx := hb x (List.mem_cons_self x xs)
    have hxs : ∀ y ∈ xs, -32768 ≤ y ∧ y ≤ 32767 := fun y hy =>
      hb y (List.mem_cons_of_mem x hy)
    have h1 : x * x ≤ 32768 ^ 2 := by nlinarith [hx.1, hx.2]
    have h2 := ih hxs
    simp only [List.map_cons, List.sum_cons, List.length_cons]
    push_cast
    nlinarith

/-- C9: the decibel energy of a chunk is invariant under permutation of
its samples; it equals `10 * log10` of the mean of the squared samples;
and for any chunk of at most `N_FRAME_PER_CHUNK` 16-bit samples the sum
of squares is nonnegative and below `2 ^ 63`, so the `int64` accumulation
is exact and overflow-free. -/
theorem sample_decibel_energy_props (l l' : List ℤ)
    (hperm : l.Perm l')
    (hb : ∀ x ∈ l, -32768 ≤ x ∧ x ≤ 32767)
    (hlen : l.length ≤ N_FRAME_PER_CHUNK) :
    sample_decibel_energy l = sample_decibel_energy l' ∧
      sample_decibel_energy l = 10 * Real.logb 10 (meanSquare l) ∧
      0 ≤ dotSelf l ∧ dotSelf l < 2 ^ 63 := by
  refine ⟨?_, ?_, dotSelf_nonneg l, ?_⟩
  · unfold sample_decibel_energy dotSelf
    rw [(hperm.map fun x => x * x).sum_eq, hperm.length_eq]
  · unfold sample_decibel_energy meanSquare
    rw [mul_comm, dotSelf_cast]
  · have h1 := dotSelf_le l hb
    have h2 : (l.length : ℤ) ≤ N_FRAME_PER_CHUNK := by exact_mod_cast hlen
    have h3 : (N_FRAME_PER_CHUNK : ℤ) = 320 := by decide
    nlinarith

/-- Closed witness for `sample_decibel_energy_props`: a concrete 3-sample
chunk and a permutation of it. -/
theorem sample_decibel_energy_props_witness :
    ([1, -2, 3] : List ℤ).Perm [3, 1, -2] ∧
      (∀ x ∈ ([1, -2, 3] : List ℤ), -32768 ≤ x ∧ x ≤ 32767) ∧
      ([1, -2, 3] : List ℤ).length ≤ N_FRAME_PER_CHUNK ∧
      (sample_decibel_energy [1, -2, 3] = sample_decibel_energy [3, 1, -2] ∧
        sample_decibel_energy [1, -2, 3] =
          10 * Real.logb 10 (meanSquare [1, -2, 3]) ∧
        0 ≤ dotSelf [1, -2, 3] ∧ dotSelf [1, -2, 3] < 2 ^ 63) :=
  ⟨by decide, by decide, by decide,
    sample_decibel_energy_props [1, -2, 3] [3, 1, -2] (by decide) (by decide)
      (by decide)⟩

/-! ## Ingestion channel: `Queue.get(timeout=0.1)` and warm-up discard
(`discard_first_at_least`, lines 95-102; `main` line 57).

The channel is embedded as the list of entries available to the consumer,
in FIFO order. `Queue.get(timeout=0.1)` on a non-empty channel returns the
head; on an empty channel (no producer delivers within the wait) it raises
`queue.Empty` in Python, embedded as an `Except.error`. Nothing in the
code catches this error. -/

/-- A `ChannelEntry`: the `(data, n_frame)` pair put by the capture
callback. -/
def ChannelEntry : Type := List Nat × Nat
deriving instance DecidableEq, Repr for ChannelEntry

/-- The error raised by `Queue.get(timeout=...)` when the wait expires. -/
inductive QueueError where
  | empty
deriving DecidableEq, Repr

deriving instance DecidableEq for Except

/-- `audio_queue.get(timeout=0.1)`: head of the channel, or the uncaught
`queue.Empty` error when nothing is available. -/
def queueGet (q : List ChannelEntry) :
    Except QueueError (ChannelEntry × List ChannelEntry) :=
  match q with
  | [] => .error .empty
  | e :: rest => .ok (e, rest)

/-- The `for _ in range(n_discard)` loop of `discard_first_at_least`:
`n` successive timed retrievals. -/
def queueGetN : Nat → List ChannelEntry →
    Except QueueError (List ChannelEntry)
  | 0, q => .ok q
  | n + 1, q =>
    match queueGet q with
    | .error e => .error e
    | .ok (_, rest) => queueGetN n rest

/-- `discard_first_at_least` (lines 95-102) with `n_discard = 5`: when
fewer than `n_discard` entries are queued, retrieve `n_discard` entries
with a timed wait each; then clear whatever remains. The returned value is
the channel content afterwards, or the error propagating out of an
expired timed retrieval. -/
def discard_first_at_least (q : List ChannelEntry) (n_discard : Nat := 5) :
    Except QueueError (List ChannelEntry) :=
  if q.length < n_discard then
    match queueGetN n_discard q with
    | .error e => .error e
    | .ok _ => .ok []
  else .ok []

lemma queueGetN_ok (n : Nat) (q : List ChannelEntry) (hn : n ≤ q.length) :
    queueGetN n q = .ok (q.drop n) := by
  induction n generalizing q with
  | zero => simp [queueGetN]
  | succ n ih =>
    cases q with
    | nil => simp at hn
    | cons e rest =>
      simp only [queueGetN, queueGet]
      rw [ih rest (by simpa using hn)]
      rfl

lemma queueGetN_error (n : Nat) (q : List ChannelEntry)
    (hn : q.length < n) : queueGetN n q = .error .empty := by
  induction n generalizing q with
  | zero => simp at hn
  | succ n ih =>
    cases q with
    | nil => rfl
    | cons e rest =>
      simp only [queueGetN, queueGet]
      exact ih rest (by simpa using hn)

/-- C8 counterexample: a channel holding two entries (fewer than
`n_discard = 5`) and no concurrent producer. The claim says warm-up
completes, having drained exactly the available entries and left the
channel empty; the code instead lets the timed retrieval's `queue.Empty`
error escape, so warm-up does not complete at all. -/
theorem discard_few_entries_raises :
    discard_first_at_least [([0], 320), ([1], 320)] = .error .empty ∧
      discard_first_at_least [([0], 320), ([1], 320)] ≠ .ok [] := by
  exact ⟨by decide, by decide⟩

/-- C8 amended: warm-up discard with `n_discard = 5` and no concurrent
producer empties the channel exactly when at least `n_discard` entries
are queued (all of them, and no more, are dropped); with fewer entries
queued, the available entries are drained and the next timed retrieval
raises, so warm-up terminates with the `queue.Empty` error instead of
completing. -/
theorem discard_first_at_least_spec (q : List ChannelEntry) :
    discard_first_at_least q =
      if 5 ≤ q.length then .ok [] else .error .empty := by
  unfold discard_first_at_least
  by_cases h : q.length < 5
  · rw [if_pos h, if_neg (by omega), queueGetN_error 5 q h]
  · rw [if_neg h, if_pos (by omega)]

/-- Whether the consumer loop reaches `STOPPING` while processing the
queued entries in order. -/
def reachesStopping (st : LoopState) : List (List Nat × Bool) → Bool
  | [] => false
  | (data, d) :: rest =>
    match mainStep data d st with
    | (_, .STOPPING) => true
    | (st', _) => reachesStopping st' rest

/-- The consumer loop of `main` including the timed retrieval of line 57:
entries are retrieved in FIFO order with `get(timeout=0.1)`; when the
channel is exhausted before `STOPPING` the retrieval raises `queue.Empty`,
and no handler exists in the loop, so the error escapes. -/
def mainRun (st : LoopState) : List (List Nat × Bool) →
    Except QueueError LoopState
  | [] => .error .empty
  | (data, d) :: rest =>
    match mainStep data d st with
    | (st', .STOPPING) => .ok st'
    | (st', _) => mainRun st' rest

/-- C7 counterexample: with an empty channel (the bounded 100 ms wait
expires with no producer delivery), the very first retrieval of the
processing loop raises and the loop terminates with the error — it is not
silently retried. -/
theorem mainRun_timeout_not_retried :
    mainRun loopInit [] = .error .empty := rfl

/-- C7 amended: a consumer retrieval timeout is not caught anywhere: the
processing loop terminates with the `queue.Empty` error exactly when the
queued entries are exhausted before `STOPPING` is reached. A timeout
occurs only when the channel is empty, so it never drops a queued entry:
every entry retrieved before the timeout has been fully processed (the
loop behaves as `mainLoop` on the same entries). -/
theorem mainRun_timeout_spec (inputs : List (List Nat × Bool)) :
    ∀ st : LoopState,
      mainRun st inputs =
        if reachesStopping st inputs then .ok (mainLoop st inputs)
        else .error .empty := by
  induction inputs with
  | nil => intro st; rfl
  | cons p rest ih =>
    intro st
    rcases p with ⟨data, d⟩
    simp only [mainRun, reachesStopping, mainLoop]
    rcases hms : mainStep data d st with ⟨st', status⟩
    cases status <;> simp [ih]

/-! ## The spec's synthetic tone-burst scenario (claim C4). -/

/-- The synthetic chunk-energy sequence of the spec's testable property:
3 s (150 chunks) of low energy, then 1 s (50 chunks, indices 150-199) of
high energy far above the background, then low energy again. With 20 ms
chunks, `MAX_PAUSE_MS / CHUNK_MS = 100` chunks make up the maximum
pause. -/
def toneBurstSeq : List ℚ :=
  List.replicate 150 0 ++ List.replicate 50 100 ++ List.replicate 150 0

set_option maxRecDepth 1000000 in
unseal Rat.add Rat.mul Rat.inv Rat.sub in
/-- C4 counterexample: on the tone-burst scenario the machine does reach
`GOING` within the high-energy segment (at chunk 150), but reaches
`STOPPING` only at chunk 303 — 104 chunks (2080 ms) after the high-energy
segment ends at chunk 199 — later than the claimed latest chunk
`199 + (MAX_PAUSE_MS / CHUNK_MS + 1) = 300`, the chunk ending
`max_pause_ms` plus one chunk duration after the segment ends. -/
theorem pipeline_stop_exceeds_claimed_bound :
    (runPipeline classifyInit recInit toneBurstSeq).findIdx
        (· == RecordingStatus.GOING) = 150 ∧
      (runPipeline classifyInit recInit toneBurstSeq).findIdx
        (· == RecordingStatus.STOPPING) = 303 ∧
      ¬ ((runPipeline classifyInit recInit toneBurstSeq).findIdx
          (· == RecordingStatus.STOPPING) ≤
            199 + (MAX_PAUSE_MS / CHUNK_MS + 1)) := by
  decide

set_option maxRecDepth 1000000 in
unseal Rat.add Rat.mul Rat.inv Rat.sub in
/-- C4 amended: on the tone-burst scenario the machine stays `PENDING`
through the low-energy prefix and transitions to `GOING` at chunk 150,
within the high-energy segment; because the smoothed `level` decays
gradually, the classifier keeps classifying speech for 3 further chunks
(through chunk 202) after the segment ends; `STOPPING` is reached exactly
`MAX_PAUSE_MS / CHUNK_MS + 1` chunks (`max_pause_ms` plus one chunk
duration) after the last speech-classified chunk, not after the segment
end. -/
theorem pipeline_stop_follows_last_speech :
    ((runPipeline classifyInit recInit toneBurstSeq).take 150).all
        (· == RecordingStatus.PENDING) = true ∧
      (runPipeline classifyInit recInit toneBurstSeq).findIdx
        (· == RecordingStatus.GOING) = 150 ∧
      (classifyStream classifyInit toneBurstSeq).getD 202 false = true ∧
      ((classifyStream classifyInit toneBurstSeq).drop 203).all
        (· == false) = true ∧
      (runPipeline classifyInit recInit toneBurstSeq).findIdx
        (· == RecordingStatus.STOPPING) =
          202 + (MAX_PAUSE_MS / CHUNK_MS + 1) := by
  decide

end VAD
